import Mathlib

/-!
Verification of the kyna knowledge-base core against its specification.

The development shallowly embeds the Python sources of `kyna/core` into Lean:

* `document_processor.py` — the structural Q&A classifier (`_is_faq_content`),
  the structured chunker (`_split_faq_content`), the ingestion coordinator
  (`_process_document`) and deletion (`delete_document`);
* `rag_chain.py` — the session memory manager (`SessionMemoryManager`) and the
  stateful/stateless answering paths (`ask_stateful` / `ask_stateless`).

Text is modelled as `List Char`.  External collaborators (the md5 digest, the
file system, the document loaders, the embedding provider, the prose text
splitter and the vector index) are abstracted as parameters of an environment
structure; everything that the sources decide themselves is translated
literally, including the exact semantics of the regular expressions used by
the classifier (verified against CPython's `re` backtracking behaviour).
-/

set_option autoImplicit false

namespace Kyna

/-! ### Python string primitives -/

/-- Python's `\s` character class (ASCII range, as used by the sources). -/
def pyIsSpace (c : Char) : Bool :=
  c == ' ' || c == '\t' || c == '\n' || c == '\r' || c == '\x0b' || c == '\x0c'

/-- Python's `str.strip()`: remove leading and trailing whitespace. -/
def pyStrip (s : List Char) : List Char :=
  ((s.dropWhile pyIsSpace).reverse.dropWhile pyIsSpace).reverse

/-! ### The structural Q&A classifier (`DocumentProcessor._is_faq_content`)

The classifier scores the content with four signal groups:

1. each of six literal marker patterns, searched case-insensitively with
   `re.search`, adds 3 points (`FAQ`, `Frequently Asked Questions`,
   `Q\s*\d*\s*[:.]`, `Question\s*\d*\s*[:.]`, `A\s*\d*\s*[:.]`,
   `Answer\s*\d*\s*[:.]`);
2. `len(re.findall(r'^##\s*.*\?', content, re.MULTILINE))` headings containing
   a question mark add one point each once at least two exist;
3. three or more raw question marks add one point;
4. `len(re.findall(r'##.*\?\s*\n+[^#]', content, re.DOTALL))` matches add
   double weight each once at least two exist.

Content is structured Q&A iff the total reaches 3.
-/

/-- Case-insensitive match of a (lowercase ASCII) needle at the head of the
haystack; on success returns the rest of the haystack. -/
def ciStrip : List Char → List Char → Option (List Char)
  | [], s => some s
  | _ :: _, [] => none
  | n :: ns, c :: cs => if n == c.toLower then ciStrip ns cs else none

/-- Case-insensitive substring search (`re.search` with a literal pattern and
`re.IGNORECASE`). -/
def ciHasSub (w : List Char) : List Char → Bool
  | [] => w.isEmpty
  | c :: cs => (ciStrip w (c :: cs)).isSome || ciHasSub w cs

/-- Matcher for the regex tail `\s*\d*\s*[:.]`.  The three starred classes are
disjoint from `:` and `.`, so the backtracking search succeeds iff the
maximal-munch parse (maximal whitespace run, then maximal digit run, then
maximal whitespace run) is followed by `:` or `.`. -/
def markerTail (r : List Char) : Bool :=
  match ((r.dropWhile pyIsSpace).dropWhile Char.isDigit).dropWhile pyIsSpace with
  | c :: _ => c == ':' || c == '.'
  | [] => false

/-- `re.search(w + r'\s*\d*\s*[:.]', content, re.IGNORECASE)` for a literal
word `w` (given lowercase): some occurrence of `w`, case-insensitively, is
followed by `markerTail`. -/
def markerHit (w : List Char) : List Char → Bool
  | [] => false
  | c :: cs =>
      (match ciStrip w (c :: cs) with
       | some r => markerTail r
       | none => false) || markerHit w cs

/-- Attempted match of `^##\s*.*\?` (`re.MULTILINE`) at a line start, returning
the number of characters consumed by the greedy match.  `\s*` may cross
newlines, `.*` may not; the greedy engine first takes the maximal whitespace
run after `##`, then the rest of the line it landed in up to the last `?` of
that line.  Any intermediate line inside the whitespace run is
whitespace-only, so the match succeeds iff the line reached after the maximal
whitespace run contains a `?`. -/
def qhTry (s : List Char) : Option Nat :=
  match s with
  | c1 :: c2 :: rest =>
      if c1 == '#' && c2 == '#' then
        let t := rest.dropWhile pyIsSpace
        let tline := t.takeWhile (fun c => !(c == '\n'))
        if tline.contains '?' then
          let wlen := rest.length - t.length
          let qidx := tline.length - 1 - (tline.reverse.takeWhile (fun c => !(c == '?'))).length
          some (2 + wlen + qidx + 1)
        else none
      else none
  | _ => none

/-- Scan for `re.findall(r'^##\s*.*\?', content, re.MULTILINE)`: non-overlapping
matches may only start at line starts; scanning resumes after each match.
The Boolean records whether the current position is a line start.  Fuel is the
initial length of the list: every step consumes at least one character, so the
fuel never runs out. -/
def qhGo : Nat → List Char → Bool → Nat
  | 0, _, _ => 0
  | _ + 1, [], _ => 0
  | f + 1, c :: cs, atStart =>
      if atStart then
        match qhTry (c :: cs) with
        | some n => 1 + qhGo f (cs.drop (n - 1)) false
        | none => qhGo f cs (c == '\n')
      else qhGo f cs (c == '\n')

/-- `question_headers` of `_is_faq_content`. -/
def qhScan (s : List Char) : Nat := qhGo s.length s true

/-- Backtracking match of the regex tail `\s*\n+[^#]` (after the `?` of the
`qa` pattern), returning the number of characters it consumes.  `\s*` prefers
the longest prefix of the whitespace run, `\n+` then the longest newline run
at that point, `[^#]` consumes one further character (which may itself be
whitespace).  Candidates are tried in exactly the engine's order. -/
def tailConsume (v : List Char) : Option Nat :=
  let W := (v.takeWhile pyIsSpace).length
  (List.range (W + 1)).reverse.findSome? (fun i =>
    let r := ((v.drop i).takeWhile (fun c => c == '\n')).length
    (List.range' (i + 1) r).reverse.findSome? (fun j =>
      match v.get? j with
      | some c => if c == '#' then none else some (j + 1)
      | none => none))

/-- Attempted match of `##.*\?\s*\n+[^#]` (`re.DOTALL`) at the current
position, returning the total number of characters consumed.  With `DOTALL`
the greedy `.*` crosses newlines, so the engine tries the question marks of
the whole remaining text from the last one backwards. -/
def qaTry (s : List Char) : Option Nat :=
  match s with
  | c1 :: c2 :: rest =>
      if c1 == '#' && c2 == '#' then
        match
          ((List.range rest.length).filter (fun i => rest.getD i ' ' == '?')).reverse.findSome?
            (fun q => (tailConsume (rest.drop (q + 1))).map (fun m => q + 1 + m))
        with
        | some n => some (2 + n)
        | none => none
      else none
  | _ => none

/-- Scan for `re.findall(r'##.*\?\s*\n+[^#]', content, re.DOTALL)`:
non-overlapping matches, scanning resumes after each match (matches consume at
least three characters, so one unit of fuel per character suffices). -/
def qaGo : Nat → List Char → Nat
  | 0, _ => 0
  | _ + 1, [] => 0
  | f + 1, c :: cs =>
      match qaTry (c :: cs) with
      | some n => 1 + qaGo f (cs.drop (n - 1))
      | none => qaGo f cs

/-- `qa_pattern_matches` of `_is_faq_content`. -/
def qaScan (s : List Char) : Nat := qaGo s.length s

/-- The weighted score of `DocumentProcessor._is_faq_content`. -/
def faqScore (content : List Char) : Nat :=
  (if ciHasSub "faq".data content then 3 else 0)
  + (if ciHasSub "frequently asked questions".data content then 3 else 0)
  + (if markerHit "q".data content then 3 else 0)
  + (if markerHit "question".data content then 3 else 0)
  + (if markerHit "a".data content then 3 else 0)
  + (if markerHit "answer".data content then 3 else 0)
  + (if 2 ≤ qhScan content then qhScan content else 0)
  + (if 3 ≤ content.count '?' then 1 else 0)
  + (if 2 ≤ qaScan content then qaScan content * 2 else 0)

/-- `DocumentProcessor._is_faq_content`: structured Q&A iff the score reaches
the threshold 3. -/
def isFaqContent (content : List Char) : Bool := decide (3 ≤ faqScore content)

/-- Presence of any of the six literal marker patterns of the classifier. -/
def faqMarkersAny (content : List Char) : Bool :=
  ciHasSub "faq".data content || ciHasSub "frequently asked questions".data content
  || markerHit "q".data content || markerHit "question".data content
  || markerHit "a".data content || markerHit "answer".data content

/-! ### The structured chunker (`DocumentProcessor._split_faq_content`)

Sections are produced by `re.split(r'\n(?=##\s+)', content)`: the split points
are the newlines directly followed by `##` and at least one whitespace
character; the newline is consumed, the lookahead is not.  Blank sections and
sections with fewer than two non-empty lines are skipped.  A section whose
stripped text exceeds `2 * chunk_size` is re-split on `\n\n+` paragraph
boundaries and greedily re-packed; every flushed pack that does not itself
start with `##` gets the section's first line prepended when that line is a
heading.
-/

/-- Lookahead `(?=##\s+)`: the position starts a markdown section heading. -/
def secStart : List Char → Bool
  | '#' :: '#' :: c :: _ => pyIsSpace c
  | _ => false

/-- Accumulating scan for `re.split(r'\n(?=##\s+)', content)`.  The first
argument is the reversed current piece. -/
def splitSections : List Char → List Char → List (List Char)
  | acc, [] => [acc.reverse]
  | acc, '\n' :: cs =>
      if secStart cs then acc.reverse :: splitSections [] cs
      else splitSections ('\n' :: acc) cs
  | acc, c :: cs => splitSections (c :: acc) cs

/-- The sections of a document, as produced by `_split_faq_content`. -/
def sectionsOf (content : List Char) : List (List Char) := splitSections [] content

/-- Accumulating scan for `re.split(r'\n\n+', section)`: a separator is a
maximal run of at least two newlines.  Fuel is the initial length: each step
consumes at least one character. -/
def parasGo : Nat → List Char → List Char → List (List Char)
  | 0, acc, _ => [acc.reverse]
  | _ + 1, acc, [] => [acc.reverse]
  | f + 1, acc, '\n' :: '\n' :: cs =>
      acc.reverse :: parasGo f [] (cs.dropWhile (fun c => c == '\n'))
  | f + 1, acc, c :: cs => parasGo f (c :: acc) cs

/-- The paragraphs of an oversized section (`re.split(r'\n\n+', section)`). -/
def splitParas (s : List Char) : List (List Char) := parasGo s.length [] s

/-- Python's `str.startswith('##')`. -/
def startsHH : List Char → Bool
  | '#' :: '#' :: _ => true
  | _ => false

/-- The non-empty stripped lines of a section
(`[line.strip() for line in section.split('\n') if line.strip()]`). -/
def neLines (s : List Char) : List (List Char) :=
  ((s.splitOn '\n').map pyStrip).filter (fun l => !l.isEmpty)

/-- The `question_line` of `_split_faq_content`: the section's first non-empty
line when it is a heading, otherwise the empty string. -/
def qlineOf (s : List Char) : List Char :=
  match neLines s with
  | [] => []
  | l :: _ => if startsHH l then l else []

/-- `chunk_with_context`: prepend the heading line to a flushed pack unless the
heading is empty or the pack already starts with `##`. -/
def withContext (qline cur : List Char) : List Char :=
  if !qline.isEmpty && !startsHH cur then qline ++ '\n' :: '\n' :: cur else cur

/-- The greedy paragraph-packing loop of `_split_faq_content` for an oversized
section: arguments are the remaining paragraphs, the current pack and the
chunks emitted so far. -/
def packLoop (maxSz : Nat) (qline : List Char) :
    List (List Char) → List Char → List (List Char) → List (List Char)
  | [], cur, acc => if cur.isEmpty then acc else acc ++ [withContext qline cur]
  | p :: ps, cur, acc =>
      let t := if cur.isEmpty then p else cur ++ '\n' :: '\n' :: p
      if t.length ≤ maxSz then packLoop maxSz qline ps t acc
      else packLoop maxSz qline ps p (if cur.isEmpty then acc else acc ++ [withContext qline cur])

/-- The per-section body of `_split_faq_content`: blank sections and sections
with fewer than two non-empty lines yield nothing; sections within the
inflated budget `2 * chunk_size` yield themselves as a single chunk; larger
sections are re-split by paragraph packing. -/
def chunksOfSection (chunkSize : Nat) (sec : List Char) : List (List Char) :=
  if (pyStrip sec).isEmpty then []
  else
    let s := pyStrip sec
    if (neLines s).length < 2 then []
    else if chunkSize * 2 < s.length then
      packLoop (chunkSize * 2) (qlineOf s) (splitParas s) [] []
    else [s]

/-- `DocumentProcessor._split_faq_content` on one document's text. -/
def splitFaqContent (chunkSize : Nat) (content : List Char) : List (List Char) :=
  ((sectionsOf content).map (chunksOfSection chunkSize)).flatten

/-! ### The ingestion coordinator (`DocumentProcessor._process_document`)

The relational store is a list of document records, the vector index a list of
points; both live in `KBState` together with the on-disk file store and the
key counters (the database's autoincrement primary key and the point keys,
which the source draws from `uuid4` — modelled as a counter, which preserves
the only property used: freshness).  External collaborators are the fields of
`IngestEnv`.  Every call also returns the chronological list of externally
visible steps it performed, used to state ordering properties.
-/

inductive SourceType where
  | file
  | url
deriving DecidableEq, Repr

/-- The `source_url` column: `"/files/placeholder"`, `f"/files/{doc_id}"`, or
the origin URL of a web document. -/
inductive SourceUrl where
  | placeholder
  | filesPath (docId : Nat)
  | origin (url : List Char)
deriving DecidableEq, Repr

/-- A row of the `documents` table (`models.Document`).  The model has columns
`id`, `filename`, `source_type`, `source_url`, `document_type`,
`content_hash` (unique), `vector_ids` and timestamps; it declares no
`filepath` attribute. -/
structure DocRecord where
  id : Nat
  filename : List Char
  sourceType : SourceType
  sourceUrl : SourceUrl
  documentType : List Char
  contentHash : List Char
  vectorIds : List Nat
deriving DecidableEq, Repr

/-- A point of the vector index: key, payload `document_id`, `chunk_index` and
`page_content` (the embedding vector itself is external data and not needed by
any claim). -/
structure VecPoint where
  id : Nat
  documentId : Nat
  chunkIndex : Nat
  content : List Char
deriving DecidableEq, Repr

/-- The shared state: metadata store, vector index, on-disk files, and the two
fresh-key counters. -/
structure KBState where
  docs : List DocRecord
  points : List VecPoint
  files : List (List Char)
  nextDocId : Nat
  nextVecId : Nat
deriving DecidableEq, Repr

/-- External collaborators of the ingestion pipeline: file system bytes, the
md5 hex digest, the file/URL loaders, `pathlib`'s suffix extraction, the prose
text splitter (`RecursiveCharacterTextSplitter`) and whether the vector-index
upsert succeeds.  Loading and embedding are deterministic functions of their
inputs; the embedding values themselves are irrelevant to every claim and are
not modelled. -/
structure IngestEnv where
  fileBytes : List Char → List Char
  md5hex : List Char → List Char
  parseFile : List Char → List (List Char)
  fetchUrl : List Char → List (List Char)
  pathSuffix : List Char → List Char
  proseSplit : List Char → List (List Char)
  chunkSize : Nat
  upsertOk : Bool

/-- The chronological externally visible steps of one ingestion call. -/
inductive IngestEvent where
  | loaded
  | dedupChecked
  | chunked
  | embedded
  | recordCommitted
  | sourceUrlUpdated
  | vectorsUpserted
  | vectorIdsUpdated
deriving DecidableEq, Repr

inductive IngestError where
  | loadError
  | indexWriteError
deriving DecidableEq, Repr

/-- The content fingerprint of `_process_document`: md5 of the file bytes for
files, md5 of the URL string for URLs. -/
def contentHashOf (env : IngestEnv) (ty : SourceType) (source : List Char) : List Char :=
  match ty with
  | .file => env.md5hex (env.fileBytes source)
  | .url => env.md5hex source

/-- The loaded units of `_process_document` (`_load_document` /
`_load_url_document`). -/
def loadedUnits (env : IngestEnv) (ty : SourceType) (source : List Char) : List (List Char) :=
  match ty with
  | .file => env.parseFile source
  | .url => env.fetchUrl source

/-- `DocumentProcessor._chunk_document`: join the unit texts with blank lines,
classify once, then chunk each unit with the structured splitter or the prose
splitter. -/
def chunkDocument (env : IngestEnv) (docs : List (List Char)) : List (List Char) :=
  if isFaqContent (List.intercalate ('\n' :: '\n' :: []) docs) then
    (docs.map (splitFaqContent env.chunkSize)).flatten
  else
    (docs.map env.proseSplit).flatten

/-- Index of the first occurrence of an event in a trace. -/
def eventPos (tr : List IngestEvent) (e : IngestEvent) : Nat :=
  tr.findIdx (fun x => x == e)

/-- The freshly committed record of `_process_document`: empty `vector_ids`,
placeholder `source_url` for files, origin URL for web pages. -/
def freshRecord (env : IngestEnv) (source filename : List Char) (ty : SourceType)
    (docId : Nat) (h : List Char) : DocRecord :=
  { id := docId
    filename := filename
    sourceType := ty
    sourceUrl := match ty with | .file => .placeholder | .url => .origin source
    documentType := match ty with | .file => env.pathSuffix source | .url => "html".data
    contentHash := h
    vectorIds := [] }

/-- The `source_url` update commit (`doc_model.source_url = f"/files/{id}"`):
set the `source_url` of the record with the given id. -/
def setUrl (n : Nat) (d : DocRecord) : DocRecord :=
  if d.id == n then { d with sourceUrl := .filesPath n } else d

/-- The `vector_ids` update commit (`doc_model.vector_ids = vector_ids`): set
the `vector_ids` of the record with the given id. -/
def setVecIds (n : Nat) (ids : List Nat) (d : DocRecord) : DocRecord :=
  if d.id == n then { d with vectorIds := ids } else d

/-- The fresh-record phase of `_process_document` after the dedup check found
nothing: chunk, embed, commit the record with an empty `vector_ids`, update
`source_url` for file sources, upsert the vectors, then write the vector ids
back to the record.  A failing upsert leaves the committed record in place and
propagates the error. -/
def ingestFresh (env : IngestEnv) (source filename : List Char) (ty : SourceType)
    (st : KBState) (h : List Char) (documents : List (List Char)) :
    Except IngestError Nat × KBState × List IngestEvent :=
  let chunks := chunkDocument env documents
  let doc0 : DocRecord := freshRecord env source filename ty st.nextDocId h
  let st1 : KBState := { st with docs := st.docs ++ [doc0], nextDocId := st.nextDocId + 1 }
  let st2 : KBState :=
    match ty with
    | .file => { st1 with docs := st1.docs.map (setUrl doc0.id) }
    | .url => st1
  let ev2 : List IngestEvent := match ty with | .file => [.sourceUrlUpdated] | .url => []
  if env.upsertOk then
    let vecIds := (List.range chunks.length).map (fun j => st2.nextVecId + j)
    let pts := chunks.enum.map (fun p => VecPoint.mk (st2.nextVecId + p.1) doc0.id p.1 p.2)
    let st3 : KBState :=
      { st2 with points := st2.points ++ pts, nextVecId := st2.nextVecId + chunks.length }
    let st4 : KBState := { st3 with docs := st3.docs.map (setVecIds doc0.id vecIds) }
    (Except.ok doc0.id, st4,
      [.loaded, .dedupChecked, .chunked, .embedded, .recordCommitted] ++ ev2
        ++ [.vectorsUpserted, .vectorIdsUpdated])
  else
    (Except.error .indexWriteError, st2,
      [.loaded, .dedupChecked, .chunked, .embedded, .recordCommitted] ++ ev2)

/-- `DocumentProcessor._process_document`.  The source loads the document,
then looks up an existing record by content hash and short-circuits with its
id; only then does it check the load result, chunk, embed and write. -/
def processDocument (env : IngestEnv) (source filename : List Char) (ty : SourceType)
    (st : KBState) : Except IngestError Nat × KBState × List IngestEvent :=
  match st.docs.find? (fun d => d.contentHash == contentHashOf env ty source) with
  | some d => (Except.ok d.id, st, [.loaded, .dedupChecked])
  | none =>
      if (loadedUnits env ty source).isEmpty then
        (Except.error .loadError, st, [.loaded, .dedupChecked])
      else
        ingestFresh env source filename ty st (contentHashOf env ty source)
          (loadedUnits env ty source)

/-- The ORM `Document` model declares no `filepath` column, so Python's
`hasattr(doc_model, 'filepath')` is `False` for every record fetched from the
store. -/
def docHasFilepathAttr : Bool := false

/-- The chronological externally visible steps of one deletion call. -/
inductive DelEvent where
  | indexDeleteCalled
  | fileRemoved
  | recordDeleted
deriving DecidableEq, Repr

/-- `DocumentProcessor.delete_document`: look up by id (returning `false` when
absent), delete the recorded vector keys from the index when the list is
non-empty, then — because `hasattr(doc_model, 'filepath')` is always `False`
— skip the `os.remove` branch, delete the record, and return `true`.  The
on-disk file store is never touched. -/
def deleteDocument (st : KBState) (docId : Nat) : Bool × KBState × List DelEvent :=
  match st.docs.find? (fun d => d.id == docId) with
  | none => (false, st, [])
  | some d =>
      let st1 : KBState :=
        if d.vectorIds.isEmpty then st
        else { st with points := st.points.filter (fun p => !(d.vectorIds.contains p.id)) }
      let ev1 : List DelEvent := if d.vectorIds.isEmpty then [] else [.indexDeleteCalled]
      let st2 : KBState :=
        if d.sourceType == .file && docHasFilepathAttr then st1 else st1
      let st3 : KBState := { st2 with docs := st2.docs.eraseP (fun x => x.id == docId) }
      (true, st3, ev1 ++ [.recordDeleted])

/-! ### The session cache (`SessionMemoryManager`) and the answering paths

`SessionMemoryManager.sessions` is a dict from session id to a pair of a
conversation memory and a `last_access` timestamp.  `get_memory` first removes
every session whose idle time exceeds `ttl_seconds` (lazy eviction — there is
no other transition that evicts), then returns the existing memory (refreshing
its timestamp) or installs a fresh empty one.  Time is modelled as `Nat`;
Python's `current_time - last_access > ttl` is `last_access + ttl < now`.
-/

/-- An exchange: the human message and the AI message of one turn. -/
abbrev Exchange := List Char × List Char

/-- One entry of `SessionMemoryManager.sessions`: the memory's message history
and the `last_access` timestamp. -/
structure SessionEntry where
  history : List Exchange
  lastAccess : Nat
deriving DecidableEq, Repr

/-- The session dict, as an association list with unique keys (Python dict). -/
structure MemoryState where
  sessions : List (List Char × SessionEntry)
deriving DecidableEq, Repr

/-- Dict lookup by session id. -/
def findSession (sid : List Char) : List (List Char × SessionEntry) → Option SessionEntry
  | [] => none
  | p :: ps => if p.1 == sid then some p.2 else findSession sid ps

/-- `SessionMemoryManager._cleanup_expired_sessions`: drop every session with
`current_time - last_access > ttl_seconds`. -/
def cleanupExpired (ttl now : Nat) (ss : List (List Char × SessionEntry)) :
    List (List Char × SessionEntry) :=
  ss.filter (fun p => !(decide (p.2.lastAccess + ttl < now)))

/-- Refresh the `last_access` timestamp of a session entry. -/
def refreshEntry (now : Nat) (e : SessionEntry) : SessionEntry :=
  { e with lastAccess := now }

/-- `SessionMemoryManager.get_memory`: lazily evict expired sessions, then
return the session's history (creating an empty entry when absent) and
refresh its `last_access`. -/
def getMemory (ttl now : Nat) (sid : List Char) (st : MemoryState) :
    MemoryState × List Exchange :=
  match findSession sid (cleanupExpired ttl now st.sessions) with
  | some e =>
      (⟨(cleanupExpired ttl now st.sessions).map
          (fun p => if p.1 == sid then (p.1, refreshEntry now p.2) else p)⟩,
       e.history)
  | none => (⟨cleanupExpired ttl now st.sessions ++ [(sid, ⟨[], now⟩)]⟩, [])

/-- Last `k` elements of a list. -/
def takeLast {α : Type} (k : Nat) (l : List α) : List α := l.drop (l.length - k)

/-- Modelled from the spec: the conversation memory is langchain's
`ConversationBufferWindowMemory` (an external collaborator, not part of this
repository), constructed with `k = config.memory.max_history_length`; per the
specification it keeps the history "capped to the last k exchanges
(configurable), oldest dropped first". -/
def windowAppend (k : Nat) (h : List Exchange) (ex : Exchange) : List Exchange :=
  takeLast k (h ++ [ex])

/-- Append one finished exchange to a session's windowed history (the memory
save that the conversational chain performs after a successful turn). -/
def appendExchange (k : Nat) (sid : List Char) (ex : Exchange) (st : MemoryState) :
    MemoryState :=
  ⟨st.sessions.map (fun p =>
    if p.1 == sid then (p.1, { p.2 with history := windowAppend k p.2.history ex }) else p)⟩

/-- The response of a retrieval chain invocation: generated answer and source
documents (content and serialized metadata). -/
structure ChainResponse where
  answer : List Char
  sourceDocs : List (List Char × List Char)
deriving DecidableEq, Repr

/-- The answer dictionary returned by the RAG chain.  On the success path the
source builds the dict without an `error` key; `error := false` models the
absent key. -/
structure AnswerDict where
  question : List Char
  answer : List Char
  sourceDocuments : List (List Char × List Char)
  error : Bool
deriving DecidableEq, Repr

/-- The error answer text `f"Error processing question: {str(e)}"`. -/
def errorAnswerText (e : List Char) : List Char :=
  "Error processing question: ".data ++ e

/-- `RAGChain.ask_stateful`: fetch the session memory, invoke the
conversational chain (external: question condensing, retrieval, generation,
and the memory update on success), and wrap the outcome.  The whole body runs
in a `try`, so a failing chain is converted into an error-flagged answer with
an empty source list instead of propagating; the memory append does not
happen on failure. -/
def askStateful (ttl k now : Nat)
    (chain : List Exchange → List Char → Except (List Char) ChainResponse)
    (question sid : List Char) (st : MemoryState) : AnswerDict × MemoryState :=
  let r := getMemory ttl now sid st
  match chain r.2 question with
  | .ok resp =>
      ({ question := question, answer := resp.answer, sourceDocuments := resp.sourceDocs,
         error := false },
       appendExchange k sid (question, resp.answer) r.1)
  | .error e =>
      ({ question := question, answer := errorAnswerText e, sourceDocuments := [],
         error := true }, r.1)

/-- `RAGChain.ask_stateless`: invoke the single-turn retrieval chain
(external) with no `try`; a failure propagates to the caller unchanged. -/
def askStateless (chain : List Char → Except (List Char) ChainResponse)
    (question : List Char) : Except (List Char) AnswerDict :=
  match chain question with
  | .ok resp =>
      .ok { question := question, answer := resp.answer,
            sourceDocuments := resp.sourceDocs, error := false }
  | .error e => .error e

/-! ## Helper lemmas -/

theorem qhTry_eq_none_of_ne (c : Char) (cs : List Char) (h : c ≠ '#') :
    qhTry (c :: cs) = none := by
  cases cs with
  | nil => rfl
  | cons c2 rest => simp [qhTry, h]

theorem qhGo_eq_zero (f : Nat) : ∀ (s : List Char) (b : Bool), '#' ∉ s → qhGo f s b = 0 := by
  induction f with
  | zero => intro s b _; rfl
  | succ f ih =>
      intro s b hs
      cases s with
      | nil => rfl
      | cons c cs =>
          have hc : c ≠ '#' := fun hcc => hs (hcc ▸ List.mem_cons_self c cs)
          have hcs : '#' ∉ cs := fun hm => hs (List.mem_cons_of_mem c hm)
          simp [qhGo, qhTry_eq_none_of_ne c cs hc, ih cs (c == '\n') hcs]

theorem qaTry_eq_none_of_ne (c : Char) (cs : List Char) (h : c ≠ '#') :
    qaTry (c :: cs) = none := by
  cases cs with
  | nil => rfl
  | cons c2 rest => simp [qaTry, h]

theorem qaGo_eq_zero (f : Nat) : ∀ (s : List Char), '#' ∉ s → qaGo f s = 0 := by
  induction f with
  | zero => intro s _; rfl
  | succ f ih =>
      intro s hs
      cases s with
      | nil => rfl
      | cons c cs =>
          have hc : c ≠ '#' := fun hcc => hs (hcc ▸ List.mem_cons_self c cs)
          have hcs : '#' ∉ cs := fun hm => hs (List.mem_cons_of_mem c hm)
          simp [qaGo, qaTry_eq_none_of_ne c cs hc, ih cs hcs]

/-! ## Claim C2 — the structural classifier -/

/-- The specification's canonical structured example: a markdown question
heading followed by a paragraph, repeated twice. -/
def twoQaDoc : List Char :=
  "## What is X?\n\nX is nice.\n\n## What is Y?\n\nY is nice.\n".data

/-- The same document with the question-heading/paragraph block repeated three
times instead of twice. -/
def threeQaDoc : List Char :=
  "## What is X?\n\nX is nice.\n\n## What is Y?\n\nY is nice.\n\n## What is Z?\n\nZ is nice.\n".data

/-- C2 counterexample.  The sentence "I live in America." is plain prose with
no heading and no question mark, yet the classifier scores it 3 and returns
structured Q&A: the pattern for answer prefixes, `A\s*\d*\s*[:.]` searched
with `re.IGNORECASE`, matches the final "a." of "America.".  Conversely the
specification's own example — "## What is X?" followed by a paragraph,
repeated twice — scores only 2 (one point per question heading; the
heading-followed-by-paragraph pattern is counted by non-overlapping greedy
`findall`, which merges everything into a single match, so its "at least two"
branch cannot fire) and is classified prose. -/
theorem faq_classifier_counterexample :
    ('#' ∉ "I live in America.".data)
    ∧ ("I live in America.".data).count '?' < 3
    ∧ isFaqContent "I live in America.".data = true
    ∧ isFaqContent twoQaDoc = false := by decide

/-- C2 (amended): the classifier computes the weighted score as specified,
except that (a) the literal markers are searched case-insensitively anywhere
in the text, so plain prose classifies as prose only when it also contains no
marker occurrence (for instance no word ending in "a" directly before a
period), and (b) the greedy non-overlapping `findall` of the
heading-followed-by-paragraph pattern produces at most one match, so the
two-block example gains no points from it and three repetitions of
"## What is X?" plus a paragraph are needed to reach the threshold. -/
theorem faq_classifier_amended (content : List Char)
    (hm : faqMarkersAny content = false)
    (hq : content.count '?' < 3)
    (hh : '#' ∉ content) :
    isFaqContent content = false ∧ isFaqContent threeQaDoc = true := by
  refine ⟨?_, by decide⟩
  have h1 : qhGo content.length content true = 0 := qhGo_eq_zero _ content true hh
  have h2 : qaGo content.length content = 0 := qaGo_eq_zero _ content hh
  have h3 : ¬ 3 ≤ content.count '?' := by omega
  simp only [faqMarkersAny, Bool.or_eq_false_iff] at hm
  obtain ⟨⟨⟨⟨⟨m1, m2⟩, m3⟩, m4⟩, m5⟩, m6⟩ := hm
  simp [isFaqContent, faqScore, m1, m2, m3, m4, m5, m6, h1, h2, h3, qhScan, qaScan]

theorem faq_classifier_amended_witness :
    faqMarkersAny "hello world".data = false
    ∧ ("hello world".data).count '?' < 3
    ∧ '#' ∉ "hello world".data
    ∧ isFaqContent "hello world".data = false
    ∧ isFaqContent threeQaDoc = true := by
  refine ⟨by decide, by decide, by decide, ?_, ?_⟩
  · exact (faq_classifier_amended "hello world".data (by decide) (by decide) (by decide)).1
  · exact (faq_classifier_amended "hello world".data (by decide) (by decide) (by decide)).2

/-! ## Claim C10 — sections with fewer than two non-empty lines are dropped -/

/-- C10: in the structured chunking path, a heading-delimited section with
fewer than two non-empty lines (a bodyless heading, a lone line before the
first heading) produces no chunk at all. -/
theorem short_section_dropped (chunkSize : Nat) (content sec : List Char)
    (_hsec : sec ∈ sectionsOf content)
    (hshort : (neLines (pyStrip sec)).length < 2) :
    chunksOfSection chunkSize sec = [] := by
  unfold chunksOfSection
  split
  · rfl
  · rw [if_pos hshort]

theorem short_section_dropped_witness :
    ("## Empty?\n".data ∈ sectionsOf "FAQ\n## Empty?\n".data)
    ∧ (neLines (pyStrip "## Empty?\n".data)).length < 2
    ∧ chunksOfSection 100 "## Empty?\n".data = [] :=
  ⟨by decide, by decide,
   short_section_dropped 100 "FAQ\n## Empty?\n".data "## Empty?\n".data (by decide) (by decide)⟩

/-! ## Claim C9 — the per-session history window -/

theorem takeLast_eq_self {α : Type} (k : Nat) (l : List α) (h : l.length ≤ k) :
    takeLast k l = l := by
  simp [takeLast, Nat.sub_eq_zero_of_le h]

theorem takeLast_cons_of_le {α : Type} (k : Nat) (a : α) (l : List α) (h : k ≤ l.length) :
    takeLast k (a :: l) = takeLast k l := by
  unfold takeLast
  have hlen : (a :: l).length - k = (l.length - k) + 1 := by simp; omega
  rw [hlen, List.drop_succ_cons]

theorem takeLast_takeLast_append {α : Type} (k : Nat) :
    ∀ (xs ys : List α), takeLast k (takeLast k xs ++ ys) = takeLast k (xs ++ ys) := by
  intro xs
  induction xs with
  | nil => intro ys; simp [takeLast]
  | cons x xs ih =>
      intro ys
      by_cases h : xs.length < k
      · rw [takeLast_eq_self k (x :: xs) (by simp; omega)]
      · push_neg at h
        rw [takeLast_cons_of_le k x xs h, List.cons_append,
          takeLast_cons_of_le k x (xs ++ ys) (by simp; omega), ih ys]

theorem foldl_windowAppend (k : Nat) :
    ∀ (exs : List Exchange) (h : List Exchange),
      List.foldl (windowAppend k) (takeLast k h) exs = takeLast k (h ++ exs) := by
  intro exs
  induction exs with
  | nil => intro h; simp
  | cons e es ih =>
      intro h
      have hstep : windowAppend k (takeLast k h) e = takeLast k (h ++ [e]) := by
        rw [windowAppend, takeLast_takeLast_append]
      calc List.foldl (windowAppend k) (takeLast k h) (e :: es)
          = List.foldl (windowAppend k) (takeLast k (h ++ [e])) es := by
            rw [List.foldl_cons, hstep]
        _ = takeLast k ((h ++ [e]) ++ es) := ih (h ++ [e])
        _ = takeLast k (h ++ e :: es) := by rw [List.append_assoc, List.singleton_append]

/-- C9: the per-session history is a bounded window.  Starting from the empty
history of a fresh session, appending any sequence of more than `k` exchanges
through the window memory retains exactly the most recent `k`, the oldest
dropped first. -/
theorem history_window_bound (k : Nat) (exs : List Exchange) (hk : k < exs.length) :
    List.foldl (windowAppend k) [] exs = exs.drop (exs.length - k)
    ∧ (List.foldl (windowAppend k) [] exs).length = k := by
  have h0 : (([] : List Exchange)) = takeLast k [] := by simp [takeLast]
  have hmain : List.foldl (windowAppend k) [] exs = takeLast k exs := by
    rw [h0, foldl_windowAppend k exs [], List.nil_append]
  refine ⟨hmain, ?_⟩
  rw [hmain]
  simp [takeLast]
  omega

theorem history_window_bound_witness :
    2 < ([(("q1".data, "a1".data) : Exchange), ("q2".data, "a2".data),
          ("q3".data, "a3".data)]).length
    ∧ List.foldl (windowAppend 2) []
        [(("q1".data, "a1".data) : Exchange), ("q2".data, "a2".data), ("q3".data, "a3".data)]
      = [("q2".data, "a2".data), ("q3".data, "a3".data)] := by
  refine ⟨by decide, ?_⟩
  have h := (history_window_bound 2
    [(("q1".data, "a1".data) : Exchange), ("q2".data, "a2".data), ("q3".data, "a3".data)]
    (by decide)).1
  rw [h]
  decide

/-! ## Claim C7 — stateful failures are swallowed, stateless failures propagate -/

/-- C7: any failure of the conversational chain during the stateful answering
path is converted into a returned answer dictionary flagged with the error
field and an empty source-documents list (the session state is the one left
by the memory access, with no exchange appended), while a failure of the
single-turn chain on the stateless path propagates to the caller unchanged. -/
theorem ask_error_asymmetry (ttl k now : Nat)
    (chainS : List Exchange → List Char → Except (List Char) ChainResponse)
    (chainQ : List Char → Except (List Char) ChainResponse)
    (question sid : List Char) (st : MemoryState) (e e2 : List Char)
    (hS : chainS (getMemory ttl now sid st).2 question = .error e)
    (hQ : chainQ question = .error e2) :
    (askStateful ttl k now chainS question sid st).1.error = true
    ∧ (askStateful ttl k now chainS question sid st).1.sourceDocuments = []
    ∧ (askStateful ttl k now chainS question sid st).1.answer = errorAnswerText e
    ∧ (askStateful ttl k now chainS question sid st).2 = (getMemory ttl now sid st).1
    ∧ askStateless chainQ question = .error e2 := by
  simp [askStateful, askStateless, hS, hQ]

theorem ask_error_asymmetry_witness :
    (askStateful 600 5 100 (fun _ _ => .error "boom".data) "hi".data "s1".data ⟨[]⟩).1.error = true
    ∧ (askStateful 600 5 100 (fun _ _ => .error "boom".data) "hi".data "s1".data ⟨[]⟩).1.sourceDocuments = []
    ∧ (askStateful 600 5 100 (fun _ _ => .error "boom".data) "hi".data "s1".data ⟨[]⟩).1.answer
        = errorAnswerText "boom".data
    ∧ (askStateful 600 5 100 (fun _ _ => .error "boom".data) "hi".data "s1".data ⟨[]⟩).2
        = (getMemory 600 100 "s1".data ⟨[]⟩).1
    ∧ askStateless (fun _ => .error "bang".data) "hi".data = .error "bang".data :=
  ask_error_asymmetry 600 5 100 (fun _ _ => .error "boom".data) (fun _ => .error "bang".data)
    "hi".data "s1".data ⟨[]⟩ "boom".data "bang".data rfl rfl

/-! ## Claim C8 — lazy TTL-based session eviction -/

theorem findSession_cons_eq (sid : List Char) (p : List Char × SessionEntry)
    (ps : List (List Char × SessionEntry)) (hp : (p.1 == sid) = true) :
    findSession sid (p :: ps) = some p.2 := by
  rw [findSession, if_pos hp]

theorem findSession_cons_ne (sid : List Char) (p : List Char × SessionEntry)
    (ps : List (List Char × SessionEntry)) (hp : (p.1 == sid) = false) :
    findSession sid (p :: ps) = findSession sid ps := by
  rw [findSession, hp]
  exact if_neg (by simp)

theorem cleanup_cons_keep (ttl now : Nat) (p : List Char × SessionEntry)
    (ps : List (List Char × SessionEntry)) (h : ¬ p.2.lastAccess + ttl < now) :
    cleanupExpired ttl now (p :: ps) = p :: cleanupExpired ttl now ps := by
  simp [cleanupExpired, List.filter_cons, h]

theorem cleanup_cons_drop (ttl now : Nat) (p : List Char × SessionEntry)
    (ps : List (List Char × SessionEntry)) (h : p.2.lastAccess + ttl < now) :
    cleanupExpired ttl now (p :: ps) = cleanupExpired ttl now ps := by
  simp [cleanupExpired, List.filter_cons, h]

theorem findSession_eq_none_of_not_mem (sid : List Char)
    (ss : List (List Char × SessionEntry)) (h : sid ∉ ss.map Prod.fst) :
    findSession sid ss = none := by
  induction ss with
  | nil => rfl
  | cons p ps ih =>
      have h1 : (p.1 == sid) = false := by
        refine beq_eq_false_iff_ne.mpr fun he => h ?_
        rw [List.map_cons, ← he]
        exact List.mem_cons_self p.1 _
      have h2 : sid ∉ ps.map Prod.fst := fun hm => h (List.mem_cons_of_mem _ hm)
      rw [findSession_cons_ne sid p ps h1]
      exact ih h2

theorem findSession_cleanup_of_kept (ttl now : Nat) (sid : List Char)
    (ss : List (List Char × SessionEntry)) (e : SessionEntry)
    (h : findSession sid ss = some e) (hkeep : ¬ e.lastAccess + ttl < now) :
    findSession sid (cleanupExpired ttl now ss) = some e := by
  induction ss with
  | nil => exact absurd h (by simp [findSession])
  | cons p ps ih =>
      by_cases hp : (p.1 == sid) = true
      · have he : p.2 = e := by
          have := findSession_cons_eq sid p ps hp
          rw [this] at h
          exact Option.some.inj h
        rw [cleanup_cons_keep ttl now p ps (he ▸ hkeep), findSession_cons_eq sid p _ hp, he]
      · have hp' : (p.1 == sid) = false := by
          cases hb : (p.1 == sid) with
          | false => rfl
          | true => exact absurd hb hp
        have h' : findSession sid ps = some e := by
          rw [findSession_cons_ne sid p ps hp'] at h
          exact h
        by_cases hk : p.2.lastAccess + ttl < now
        · rw [cleanup_cons_drop ttl now p ps hk]
          exact ih h'
        · rw [cleanup_cons_keep ttl now p ps hk, findSession_cons_ne sid p _ hp']
          exact ih h'

theorem findSession_cleanup_of_expired (ttl now : Nat) (sid : List Char)
    (ss : List (List Char × SessionEntry)) (e : SessionEntry)
    (hnd : (ss.map Prod.fst).Nodup)
    (h : findSession sid ss = some e) (hexp : e.lastAccess + ttl < now) :
    findSession sid (cleanupExpired ttl now ss) = none := by
  induction ss with
  | nil => exact absurd h (by simp [findSession])
  | cons p ps ih =>
      rw [List.map_cons, List.nodup_cons] at hnd
      by_cases hp : (p.1 == sid) = true
      · have he : p.2 = e := by
          have := findSession_cons_eq sid p ps hp
          rw [this] at h
          exact Option.some.inj h
        rw [cleanup_cons_drop ttl now p ps (he ▸ hexp)]
        have hpe : p.1 = sid := by simpa using hp
        have hsid : sid ∉ (cleanupExpired ttl now ps).map Prod.fst := by
          intro hm
          rcases List.mem_map.mp hm with ⟨q, hq, hq1⟩
          have hqps : q ∈ ps := List.mem_of_mem_filter hq
          have hmem : sid ∈ ps.map Prod.fst := List.mem_map.mpr ⟨q, hqps, hq1⟩
          exact hnd.1 (hpe ▸ hmem)
        exact findSession_eq_none_of_not_mem sid _ hsid
      · have hp' : (p.1 == sid) = false := by
          cases hb : (p.1 == sid) with
          | false => rfl
          | true => exact absurd hb hp
        have h' : findSession sid ps = some e := by
          rw [findSession_cons_ne sid p ps hp'] at h
          exact h
        by_cases hk : p.2.lastAccess + ttl < now
        · rw [cleanup_cons_drop ttl now p ps hk]
          exact ih hnd.2 h'
        · rw [cleanup_cons_keep ttl now p ps hk, findSession_cons_ne sid p _ hp']
          exact ih hnd.2 h'

theorem findSession_map_other (sid tgt : List Char) (g : SessionEntry → SessionEntry)
    (ss : List (List Char × SessionEntry)) (h : sid ≠ tgt) :
    findSession sid (ss.map (fun p => if p.1 == tgt then (p.1, g p.2) else p))
      = findSession sid ss := by
  induction ss with
  | nil => rfl
  | cons p ps ih =>
      rw [List.map_cons]
      by_cases hpt : (p.1 == tgt) = true
      · have hpe : p.1 = tgt := by simpa using hpt
        have hps : (p.1 == sid) = false := by
          rw [hpe]
          exact beq_eq_false_iff_ne.mpr fun hc => h hc.symm
        rw [if_pos hpt,
          findSession_cons_ne sid (p.1, g p.2) _ hps,
          findSession_cons_ne sid p ps hps]
        exact ih
      · have hpt' : (p.1 == tgt) = false := by
          cases hb : (p.1 == tgt) with
          | false => rfl
          | true => exact absurd hb hpt
        rw [if_neg (by simp [hpt'])]
        by_cases hps : (p.1 == sid) = true
        · rw [findSession_cons_eq sid p _ hps, findSession_cons_eq sid p ps hps]
        · have hps' : (p.1 == sid) = false := by
            cases hb : (p.1 == sid) with
            | false => rfl
            | true => exact absurd hb hps
          rw [findSession_cons_ne sid p _ hps', findSession_cons_ne sid p ps hps']
          exact ih

theorem findSession_append_some (sid : List Char)
    (xs ys : List (List Char × SessionEntry)) (e : SessionEntry)
    (h : findSession sid xs = some e) :
    findSession sid (xs ++ ys) = some e := by
  induction xs with
  | nil => exact absurd h (by simp [findSession])
  | cons p ps ih =>
      by_cases hp : (p.1 == sid) = true
      · have he : p.2 = e := by
          rw [findSession_cons_eq sid p ps hp] at h
          exact Option.some.inj h
        rw [List.cons_append, findSession_cons_eq sid p _ hp, he]
      · have hp' : (p.1 == sid) = false := by
          cases hb : (p.1 == sid) with
          | false => rfl
          | true => exact absurd hb hp
        have h' : findSession sid ps = some e := by
          rw [findSession_cons_ne sid p ps hp'] at h
          exact h
        rw [List.cons_append, findSession_cons_ne sid p _ hp']
        exact ih h'

theorem findSession_append_none (sid : List Char)
    (xs ys : List (List Char × SessionEntry))
    (h : findSession sid xs = none) :
    findSession sid (xs ++ ys) = findSession sid ys := by
  induction xs with
  | nil => rfl
  | cons p ps ih =>
      by_cases hp : (p.1 == sid) = true
      · rw [findSession_cons_eq sid p ps hp] at h
        exact absurd h (by simp)
      · have hp' : (p.1 == sid) = false := by
          cases hb : (p.1 == sid) with
          | false => rfl
          | true => exact absurd hb hp
        have h' : findSession sid ps = none := by
          rw [findSession_cons_ne sid p ps hp'] at h
          exact h
        rw [List.cons_append, findSession_cons_ne sid p _ hp']
        exact ih h'

theorem getMemory_found (ttl now : Nat) (sid : List Char) (st : MemoryState) (e : SessionEntry)
    (h : findSession sid (cleanupExpired ttl now st.sessions) = some e) :
    getMemory ttl now sid st =
      (⟨(cleanupExpired ttl now st.sessions).map
          (fun p => if p.1 == sid then (p.1, refreshEntry now p.2) else p)⟩,
       e.history) := by
  unfold getMemory
  rw [h]

theorem getMemory_missing (ttl now : Nat) (sid : List Char) (st : MemoryState)
    (h : findSession sid (cleanupExpired ttl now st.sessions) = none) :
    getMemory ttl now sid st =
      (⟨cleanupExpired ttl now st.sessions ++ [(sid, ⟨[], now⟩)]⟩, []) := by
  unfold getMemory
  rw [h]

/-- C8: session eviction is lazy and TTL-based.  If a session's last access is
more than `ttl` before the access time, then accessing it again starts with an
empty history, and any other session's access removes its entry; if its idle
time is within the TTL, another session's access (and the eviction that access
performs) leaves its entry — history and timestamp — unchanged.  The model has
no transition other than an access that can evict, reflecting the absence of a
background sweep. -/
theorem session_ttl_eviction (ttl now : Nat) (sid sid2 : List Char) (st : MemoryState)
    (e : SessionEntry)
    (hnd : (st.sessions.map Prod.fst).Nodup)
    (hfind : findSession sid st.sessions = some e)
    (hne : sid ≠ sid2) :
    (e.lastAccess + ttl < now →
      (getMemory ttl now sid st).2 = []
      ∧ findSession sid ((getMemory ttl now sid2 st).1).sessions = none)
    ∧ (¬ e.lastAccess + ttl < now →
      findSession sid ((getMemory ttl now sid2 st).1).sessions = some e) := by
  have hother : findSession sid ((getMemory ttl now sid2 st).1).sessions
      = findSession sid (cleanupExpired ttl now st.sessions) := by
    cases hfind2 : findSession sid2 (cleanupExpired ttl now st.sessions) with
    | some e2 =>
        rw [getMemory_found ttl now sid2 st e2 hfind2]
        exact findSession_map_other sid sid2 _ _ hne
    | none =>
        rw [getMemory_missing ttl now sid2 st hfind2]
        cases hcl : findSession sid (cleanupExpired ttl now st.sessions) with
        | some e2 => exact findSession_append_some sid _ _ e2 hcl
        | none =>
            rw [findSession_append_none sid _ _ hcl]
            rw [findSession_cons_ne sid (sid2, ⟨[], now⟩) []
              (beq_eq_false_iff_ne.mpr fun hc => hne hc.symm)]
            rfl
  constructor
  · intro hexp
    have hnone : findSession sid (cleanupExpired ttl now st.sessions) = none :=
      findSession_cleanup_of_expired ttl now sid st.sessions e hnd hfind hexp
    refine ⟨?_, by rw [hother]; exact hnone⟩
    rw [getMemory_missing ttl now sid st hnone]
  · intro hkeep
    have hsome : findSession sid (cleanupExpired ttl now st.sessions) = some e :=
      findSession_cleanup_of_kept ttl now sid st.sessions e hfind hkeep
    rw [hother]
    exact hsome

theorem session_ttl_eviction_witness :
    ((getMemory 10 100 "s1".data ⟨[("s1".data, ⟨[("q".data, "a".data)], 0⟩),
        ("s2".data, ⟨[], 95⟩)]⟩).2 = []
      ∧ findSession "s1".data ((getMemory 10 100 "s2".data ⟨[("s1".data, ⟨[("q".data, "a".data)], 0⟩),
          ("s2".data, ⟨[], 95⟩)]⟩).1).sessions = none)
    ∧ findSession "s2".data ((getMemory 10 100 "s1".data ⟨[("s1".data, ⟨[("q".data, "a".data)], 0⟩),
        ("s2".data, ⟨[], 95⟩)]⟩).1).sessions = some ⟨[], 95⟩ := by
  constructor
  · exact (session_ttl_eviction 10 100 "s1".data "s2".data
      ⟨[("s1".data, ⟨[("q".data, "a".data)], 0⟩), ("s2".data, ⟨[], 95⟩)]⟩
      ⟨[("q".data, "a".data)], 0⟩ (by decide) (by decide) (by decide)).1 (by decide)
  · exact (session_ttl_eviction 10 100 "s2".data "s1".data
      ⟨[("s1".data, ⟨[("q".data, "a".data)], 0⟩), ("s2".data, ⟨[], 95⟩)]⟩
      ⟨[], 95⟩ (by decide) (by decide) (by decide)).2 (by decide)

/-! ## Claim C1 — idempotent ingestion -/

/-- A concrete environment for witnesses: one loaded text unit per file, the
identity digest, a succeeding vector index. -/
def envA : IngestEnv :=
  ⟨fun _ => "bytes".data, fun b => b, fun _ => ["hello".data], fun _ => [],
   fun _ => ".txt".data, fun s => [s], 100, true⟩

/-- The same environment with a failing vector index. -/
def envB : IngestEnv :=
  ⟨fun _ => "bytes".data, fun b => b, fun _ => ["hello".data], fun _ => [],
   fun _ => ".txt".data, fun s => [s], 100, false⟩

/-- The empty knowledge-base state. -/
def st0 : KBState := ⟨[], [], [], 0, 0⟩

theorem find?_hash_map_update (l : List DocRecord) (hsh : List Char)
    (f : DocRecord → DocRecord)
    (hf : ∀ d, (f d).contentHash = d.contentHash) :
    (l.map f).find? (fun d => d.contentHash == hsh)
      = (l.find? (fun d => d.contentHash == hsh)).map f := by
  rw [List.find?_map]
  have hcomp : ((fun d : DocRecord => d.contentHash == hsh) ∘ f)
      = (fun d : DocRecord => d.contentHash == hsh) := by
    funext d
    simp [Function.comp, hf d]
  rw [hcomp]

theorem freshRecord_id (env : IngestEnv) (source filename : List Char) (ty : SourceType)
    (n : Nat) (h : List Char) : (freshRecord env source filename ty n h).id = n := rfl

theorem freshRecord_hash (env : IngestEnv) (source filename : List Char) (ty : SourceType)
    (n : Nat) (h : List Char) : (freshRecord env source filename ty n h).contentHash = h := rfl

theorem setUrl_contentHash (n : Nat) (d : DocRecord) :
    (setUrl n d).contentHash = d.contentHash := by
  unfold setUrl; split <;> rfl

theorem setUrl_id (n : Nat) (d : DocRecord) : (setUrl n d).id = d.id := by
  unfold setUrl; split <;> rfl

theorem setUrl_vectorIds (n : Nat) (d : DocRecord) :
    (setUrl n d).vectorIds = d.vectorIds := by
  unfold setUrl; split <;> rfl

theorem setVecIds_contentHash (n : Nat) (ids : List Nat) (d : DocRecord) :
    (setVecIds n ids d).contentHash = d.contentHash := by
  unfold setVecIds; split <;> rfl

theorem setVecIds_id (n : Nat) (ids : List Nat) (d : DocRecord) :
    (setVecIds n ids d).id = d.id := by
  unfold setVecIds; split <;> rfl

/-- Characterization of a successful ingestion: the final state's store finds,
by content hash, a record carrying the returned id. -/
theorem processDocument_ok_find (env : IngestEnv) (source filename : List Char)
    (ty : SourceType) (st : KBState) (i : Nat) (st' : KBState) (tr : List IngestEvent)
    (h : processDocument env source filename ty st = (.ok i, st', tr)) :
    ∃ d, st'.docs.find? (fun x => x.contentHash == contentHashOf env ty source) = some d
      ∧ d.id = i := by
  have hself : ((freshRecord env source filename ty st.nextDocId
      (contentHashOf env ty source)).contentHash == contentHashOf env ty source) = true := by
    rw [freshRecord_hash]
    exact beq_self_eq_true _
  unfold processDocument at h
  cases hfind : st.docs.find? (fun d => d.contentHash == contentHashOf env ty source) with
  | some d =>
      rw [hfind] at h
      simp only [Prod.mk.injEq, Except.ok.injEq] at h
      obtain ⟨h1, h2, -⟩ := h
      exact ⟨d, h2 ▸ hfind, h1⟩
  | none =>
      rw [hfind] at h
      by_cases hemp : (loadedUnits env ty source).isEmpty = true
      · rw [if_pos hemp] at h
        simp only [Prod.mk.injEq] at h
        exact absurd h.1 (by simp)
      · rw [if_neg hemp] at h
        cases hup : env.upsertOk with
        | false =>
            cases ty <;>
              · simp only [ingestFresh, hup, Bool.false_eq_true, if_false,
                  Prod.mk.injEq] at h
                exact absurd h.1 (by simp)
        | true =>
            cases ty with
            | file =>
                simp only [ingestFresh, hup, if_true, Prod.mk.injEq, Except.ok.injEq] at h
                obtain ⟨h1, h2, -⟩ := h
                subst h2
                dsimp only
                rw [find?_hash_map_update _ _ _ (fun d => setVecIds_contentHash _ _ d),
                  find?_hash_map_update _ _ _ (fun d => setUrl_contentHash _ d),
                  List.find?_append, hfind]
                simp only [List.find?, hself, Option.or, Option.map]
                refine ⟨_, rfl, ?_⟩
                rw [setVecIds_id, setUrl_id, freshRecord_id]
                exact h1
            | url =>
                simp only [ingestFresh, hup, if_true, Prod.mk.injEq, Except.ok.injEq] at h
                obtain ⟨h1, h2, -⟩ := h
                subst h2
                dsimp only
                rw [find?_hash_map_update _ _ _ (fun d => setVecIds_contentHash _ _ d),
                  List.find?_append, hfind]
                simp only [List.find?, hself, Option.or, Option.map]
                refine ⟨_, rfl, ?_⟩
                rw [setVecIds_id, freshRecord_id]
                exact h1

/-- C1: ingestion is idempotent under duplicate submission.  If a first
ingestion returned id `i` with final state `st1`, then ingesting any source
with the same content fingerprint (the same file bytes, or the same URL
string) against `st1` returns the same id `i`, leaves the state — records and
vectors — completely unchanged, and performs only the load and the dedup
check: its step trace contains no chunking, embedding or write event. -/
theorem ingest_idempotent (env : IngestEnv) (ty : SourceType)
    (s1 f1 s2 f2 : List Char) (st st1 : KBState) (i : Nat) (tr1 : List IngestEvent)
    (hhash : contentHashOf env ty s2 = contentHashOf env ty s1)
    (h1 : processDocument env s1 f1 ty st = (.ok i, st1, tr1)) :
    processDocument env s2 f2 ty st1
      = (.ok i, st1, [IngestEvent.loaded, IngestEvent.dedupChecked]) := by
  obtain ⟨d, hfind, hid⟩ := processDocument_ok_find env s1 f1 ty st i st1 tr1 h1
  unfold processDocument
  rw [hhash, hfind]
  dsimp only
  rw [hid]

theorem ingest_idempotent_witness :
    processDocument envA "/data/a.txt".data "a.txt".data SourceType.file
        (processDocument envA "/data/a.txt".data "a.txt".data SourceType.file st0).2.1
      = (Except.ok 0,
         (processDocument envA "/data/a.txt".data "a.txt".data SourceType.file st0).2.1,
         [IngestEvent.loaded, IngestEvent.dedupChecked]) := by
  apply ingest_idempotent envA SourceType.file "/data/a.txt".data "a.txt".data
    "/data/a.txt".data "a.txt".data st0
    (processDocument envA "/data/a.txt".data "a.txt".data SourceType.file st0).2.1 0
    (processDocument envA "/data/a.txt".data "a.txt".data SourceType.file st0).2.2
    rfl
  rfl

/-! ## Claim C4 — when the record is committed relative to the index write -/

/-- C4 counterexample.  A concrete successful file ingestion in which the
record commit happens strictly before the vector upsert (and a second
`vector_ids` mutation follows the upsert), contradicting the claim that the
record is created only after the vector upsert succeeded and mutated once. -/
theorem record_before_upsert_counterexample :
    (processDocument envA
      "/data/a.txt".data "a.txt".data SourceType.file st0).1 = Except.ok 0
    ∧ (processDocument envA
      "/data/a.txt".data "a.txt".data SourceType.file st0).2.2
      = [IngestEvent.loaded, IngestEvent.dedupChecked, IngestEvent.chunked,
         IngestEvent.embedded, IngestEvent.recordCommitted, IngestEvent.sourceUrlUpdated,
         IngestEvent.vectorsUpserted, IngestEvent.vectorIdsUpdated]
    ∧ eventPos [IngestEvent.loaded, IngestEvent.dedupChecked, IngestEvent.chunked,
         IngestEvent.embedded, IngestEvent.recordCommitted, IngestEvent.sourceUrlUpdated,
         IngestEvent.vectorsUpserted, IngestEvent.vectorIdsUpdated] IngestEvent.recordCommitted
      < eventPos [IngestEvent.loaded, IngestEvent.dedupChecked, IngestEvent.chunked,
         IngestEvent.embedded, IngestEvent.recordCommitted, IngestEvent.sourceUrlUpdated,
         IngestEvent.vectorsUpserted, IngestEvent.vectorIdsUpdated] IngestEvent.vectorsUpserted :=
  ⟨rfl, rfl, by decide⟩

/-- C4 (amended): in every successful ingestion that actually creates a
record, the record is committed after chunking and embedding succeed but
before the vector upsert; `vector_ids` is set empty at creation and mutated a
second time, after the upsert, by the vector-id update — it is not immutable
after creation. -/
theorem record_write_order_amended (env : IngestEnv) (source filename : List Char)
    (ty : SourceType) (st : KBState) (i : Nat) (st' : KBState) (tr : List IngestEvent)
    (h : processDocument env source filename ty st = (.ok i, st', tr))
    (hc : IngestEvent.recordCommitted ∈ tr) :
    eventPos tr IngestEvent.chunked < eventPos tr IngestEvent.embedded
    ∧ eventPos tr IngestEvent.embedded < eventPos tr IngestEvent.recordCommitted
    ∧ eventPos tr IngestEvent.recordCommitted < eventPos tr IngestEvent.vectorsUpserted
    ∧ eventPos tr IngestEvent.vectorsUpserted < eventPos tr IngestEvent.vectorIdsUpdated := by
  unfold processDocument at h
  cases hfind : st.docs.find? (fun d => d.contentHash == contentHashOf env ty source) with
  | some d =>
      rw [hfind] at h
      simp only [Prod.mk.injEq] at h
      obtain ⟨-, -, h3⟩ := h
      rw [← h3] at hc
      exact absurd hc (by decide)
  | none =>
      rw [hfind] at h
      by_cases hemp : (loadedUnits env ty source).isEmpty = true
      · rw [if_pos hemp] at h
        simp only [Prod.mk.injEq] at h
        exact absurd h.1 (by simp)
      · rw [if_neg hemp] at h
        cases hup : env.upsertOk with
        | false =>
            cases ty <;>
              · simp only [ingestFresh, hup, Bool.false_eq_true, if_false,
                  Prod.mk.injEq] at h
                exact absurd h.1 (by simp)
        | true =>
            cases ty with
            | file =>
                simp only [ingestFresh, hup, if_true, Prod.mk.injEq] at h
                obtain ⟨-, -, h3⟩ := h
                rw [← h3]
                decide
            | url =>
                simp only [ingestFresh, hup, if_true, Prod.mk.injEq] at h
                obtain ⟨-, -, h3⟩ := h
                rw [← h3]
                decide

theorem record_write_order_amended_witness :
    eventPos (processDocument envA
      "/data/a.txt".data "a.txt".data SourceType.file st0).2.2
      IngestEvent.embedded
    < eventPos (processDocument envA
      "/data/a.txt".data "a.txt".data SourceType.file st0).2.2
      IngestEvent.recordCommitted := by
  refine (record_write_order_amended envA "/data/a.txt".data "a.txt".data SourceType.file
    st0 0
    (processDocument envA "/data/a.txt".data "a.txt".data SourceType.file st0).2.1
    (processDocument envA "/data/a.txt".data "a.txt".data SourceType.file st0).2.2
    ?_ (by decide)).2.1
  rfl

/-! ## Claim C5 — a failing index write leaves the committed record orphaned -/

/-- C5: when the vector-index write fails during a fresh ingestion, the error
propagates to the caller and aborts the attempt, no vectors are written, and
the already-committed Document record remains persisted with an empty
vector-id set — it is not rolled back (and the coordinator performs no
retry). -/
theorem orphan_record_on_index_failure (env : IngestEnv) (source filename : List Char)
    (ty : SourceType) (st : KBState)
    (hup : env.upsertOk = false)
    (hfind : st.docs.find? (fun d => d.contentHash == contentHashOf env ty source) = none)
    (hload : (loadedUnits env ty source).isEmpty = false) :
    (processDocument env source filename ty st).1 = Except.error IngestError.indexWriteError
    ∧ (processDocument env source filename ty st).2.1.points = st.points
    ∧ ∃ d ∈ (processDocument env source filename ty st).2.1.docs,
        d.contentHash = contentHashOf env ty source ∧ d.vectorIds = [] ∧ d.id = st.nextDocId := by
  unfold processDocument
  rw [hfind, if_neg (by rw [hload]; exact Bool.false_ne_true)]
  cases ty with
  | file =>
      simp only [ingestFresh, hup, Bool.false_eq_true, if_false]
      refine ⟨trivial, trivial, setUrl st.nextDocId (freshRecord env source filename .file
        st.nextDocId (contentHashOf env .file source)), ?_, ?_, ?_, ?_⟩
      · exact List.mem_map_of_mem _ (List.mem_append_right _ (List.mem_singleton_self _))
      · rw [setUrl_contentHash, freshRecord_hash]
      · rw [setUrl_vectorIds]; rfl
      · rw [setUrl_id, freshRecord_id]
  | url =>
      simp only [ingestFresh, hup, Bool.false_eq_true, if_false]
      refine ⟨trivial, trivial, freshRecord env source filename .url st.nextDocId
        (contentHashOf env .url source), ?_, ?_, ?_, ?_⟩
      · exact List.mem_append_right _ (List.mem_singleton_self _)
      · rw [freshRecord_hash]
      · rfl
      · rw [freshRecord_id]

theorem orphan_record_on_index_failure_witness :
    (processDocument envB
      "/data/a.txt".data "a.txt".data SourceType.file st0).1
      = Except.error IngestError.indexWriteError
    ∧ (processDocument envB
      "/data/a.txt".data "a.txt".data SourceType.file st0).2.1.points = []
    ∧ ∃ d ∈ (processDocument envB
        "/data/a.txt".data "a.txt".data SourceType.file st0).2.1.docs,
        d.contentHash = contentHashOf envB
          SourceType.file "/data/a.txt".data
        ∧ d.vectorIds = [] ∧ d.id = 0 :=
  orphan_record_on_index_failure envB "/data/a.txt".data "a.txt".data SourceType.file
    st0 rfl rfl rfl

/-! ## Claim C6 — deletion -/

/-- A file-sourced document with one recorded vector key. -/
def dFileRec : DocRecord :=
  ⟨0, "a.txt".data, .file, .filesPath 0, ".txt".data, "h1".data, [5]⟩

/-- A state holding that document, its vector point, and its on-disk file. -/
def stDel : KBState :=
  ⟨[dFileRec], [⟨5, 0, 0, "hello".data⟩], ["/data/a.txt".data], 1, 6⟩

/-- C6 counterexample.  Deleting an existing file-sourced document removes its
vectors and its record and returns true, but the on-disk file store is
untouched: the removal branch is guarded by `hasattr(doc_model, 'filepath')`,
and the ORM model defines no such attribute, so the claimed file removal never
happens. -/
theorem delete_file_removal_counterexample :
    dFileRec.sourceType = SourceType.file
    ∧ (deleteDocument stDel 0).1 = true
    ∧ (deleteDocument stDel 0).2.1.docs = []
    ∧ (deleteDocument stDel 0).2.1.points = []
    ∧ (deleteDocument stDel 0).2.1.files = ["/data/a.txt".data] := by decide

/-- C6 (amended): `delete_document` on an existing id deletes exactly the
vector keys recorded in the document's `vector_ids` from the index — skipping
the index call when the list is empty, without error — then deletes the
metadata record, in that order, and returns true; the on-disk file of a
file-sourced document is never removed, because the record exposes no
`filepath` attribute.  For an id with no matching document it returns false,
leaving the state untouched, rather than raising. -/
theorem delete_document_amended (st : KBState) (docId : Nat) :
    (∀ d, st.docs.find? (fun x => x.id == docId) = some d →
      (deleteDocument st docId).1 = true
      ∧ (deleteDocument st docId).2.1.files = st.files
      ∧ (deleteDocument st docId).2.1.points
          = st.points.filter (fun p => !(d.vectorIds.contains p.id))
      ∧ (deleteDocument st docId).2.1.docs = st.docs.eraseP (fun x => x.id == docId)
      ∧ (deleteDocument st docId).2.2
          = (if d.vectorIds.isEmpty then ([] : List DelEvent)
             else [DelEvent.indexDeleteCalled]) ++ [DelEvent.recordDeleted])
    ∧ (st.docs.find? (fun x => x.id == docId) = none →
        deleteDocument st docId = (false, st, [])) := by
  constructor
  · intro d hd
    unfold deleteDocument
    rw [hd]
    dsimp only
    by_cases he : d.vectorIds.isEmpty = true
    · have hfilter : st.points.filter (fun p => !(d.vectorIds.contains p.id)) = st.points := by
        have hnil : d.vectorIds = [] := List.isEmpty_iff.mp he
        rw [hnil]
        simp
      rw [if_pos he]
      simp only [docHasFilepathAttr, Bool.and_false, Bool.false_eq_true, if_false]
      exact ⟨trivial, trivial, hfilter.symm, trivial, trivial⟩
    · rw [if_neg he]
      simp only [docHasFilepathAttr, Bool.and_false, Bool.false_eq_true, if_false]
      exact ⟨trivial, trivial, trivial, trivial, trivial⟩
  · intro hnone
    unfold deleteDocument
    rw [hnone]

theorem delete_document_amended_witness :
    ((deleteDocument stDel 0).1 = true
      ∧ (deleteDocument stDel 0).2.1.files = stDel.files
      ∧ (deleteDocument stDel 0).2.1.points
          = stDel.points.filter (fun p => !(dFileRec.vectorIds.contains p.id))
      ∧ (deleteDocument stDel 0).2.1.docs = stDel.docs.eraseP (fun x => x.id == 0)
      ∧ (deleteDocument stDel 0).2.2
          = (if dFileRec.vectorIds.isEmpty then ([] : List DelEvent)
             else [DelEvent.indexDeleteCalled]) ++ [DelEvent.recordDeleted])
    ∧ deleteDocument stDel 7 = (false, stDel, []) :=
  ⟨(delete_document_amended stDel 0).1 dFileRec (by decide),
   (delete_document_amended stDel 7).2 (by decide)⟩

/-! ## Claim C3 — structured chunking of heading-delimited sections -/

/-- Every chunk emitted by the greedy packing loop is `withContext` of a pack
that either fits the inflated budget or is a single paragraph of the section. -/
theorem packLoop_mem (maxSz : Nat) (qline : List Char) (P : List (List Char)) :
    ∀ (ps : List (List Char)) (cur : List Char) (acc : List (List Char)),
      (∀ p ∈ ps, p ∈ P) →
      (cur.length ≤ maxSz ∨ cur ∈ P) →
      (∀ c ∈ acc, ∃ pk, c = withContext qline pk ∧ (pk.length ≤ maxSz ∨ pk ∈ P)) →
      ∀ c ∈ packLoop maxSz qline ps cur acc,
        ∃ pk, c = withContext qline pk ∧ (pk.length ≤ maxSz ∨ pk ∈ P) := by
  intro ps
  induction ps with
  | nil =>
      intro cur acc _ hcur hacc c hc
      unfold packLoop at hc
      by_cases hemp : cur.isEmpty = true
      · rw [if_pos hemp] at hc
        exact hacc c hc
      · rw [if_neg hemp] at hc
        rcases List.mem_append.mp hc with hmem | hmem
        · exact hacc c hmem
        · rcases List.mem_singleton.mp hmem with rfl
          exact ⟨cur, rfl, hcur⟩
  | cons p ps ih =>
      intro cur acc hP hcur hacc c hc
      unfold packLoop at hc
      by_cases hfit : (if cur.isEmpty then p else cur ++ '\n' :: '\n' :: p).length ≤ maxSz
      · rw [if_pos hfit] at hc
        refine ih _ _ (fun q hq => hP q (List.mem_cons_of_mem p hq)) (Or.inl hfit)
          hacc c hc
      · rw [if_neg hfit] at hc
        refine ih _ _ (fun q hq => hP q (List.mem_cons_of_mem p hq))
          (Or.inr (hP p (List.mem_cons_self p ps))) ?_ c hc
        intro c2 hc2
        by_cases hemp : cur.isEmpty = true
        · rw [if_pos hemp] at hc2
          exact hacc c2 hc2
        · rw [if_neg hemp] at hc2
          rcases List.mem_append.mp hc2 with hmem | hmem
          · exact hacc c2 hmem
          · rcases List.mem_singleton.mp hmem with rfl
            exact ⟨cur, rfl, hcur⟩

/-- A structured document whose bodyless heading section "## Empty?" is
silently dropped although it fits any budget. -/
def cDropDoc : List Char := "FAQ\n## What is A?\nBody text here.\n## Empty?\n".data

/-- A structured document with one oversized section: at `chunk_size = 20`
(inflated budget 40) its first paragraph alone exceeds the budget, and the
second emitted chunk exceeds the budget once the heading is re-prepended. -/
def cOverDoc : List Char :=
  "FAQ\n## Long question here?\nfirst paragraph is quite long indeed\n\nsecond paragraph also long\n\nthird one".data

/-- C3 counterexample.  In the first document, the heading-delimited section
"## Empty?" fits within `2 × chunk_size` yet is emitted as no chunk at all
(the output consists of the other section only), contradicting "emitted as
exactly one chunk".  In the second document, an oversized section is re-split
into sub-chunks of lengths 59 and 61, both exceeding the inflated budget
`2 × 20 = 40`, contradicting "sub-chunks each at most 2×chunk_size". -/
theorem faq_chunking_counterexample :
    (isFaqContent cDropDoc = true
      ∧ "## Empty?\n".data ∈ sectionsOf cDropDoc
      ∧ (pyStrip "## Empty?\n".data).length ≤ 1000 * 2
      ∧ splitFaqContent 1000 cDropDoc = ["## What is A?\nBody text here.".data]
      ∧ pyStrip "## Empty?\n".data ∉ splitFaqContent 1000 cDropDoc)
    ∧ (isFaqContent cOverDoc = true
      ∧ ∃ c ∈ splitFaqContent 20 cOverDoc, 20 * 2 < c.length) := by decide

/-- C3 (amended): for a structured Q&A document, every heading-delimited
section with at least two non-empty lines whose stripped text fits within
`2 × chunk_size` is emitted as exactly one chunk — the heading is never split
from its immediately following content.  A section exceeding the budget is
split on blank-line paragraph boundaries into greedily packed sub-chunks; each
sub-chunk is a pack of paragraphs that either fits the budget or is a single
oversized paragraph, optionally with the section's heading line prepended
(the prepend happens exactly when the heading exists and the pack does not
itself start with "##", and may push a sub-chunk past the budget). -/
theorem faq_chunking_amended (chunkSize : Nat) (content sec : List Char)
    (_hfaq : isFaqContent content = true)
    (_hsec : sec ∈ sectionsOf content)
    (hlines : 2 ≤ (neLines (pyStrip sec)).length) :
    ((pyStrip sec).length ≤ chunkSize * 2 → chunksOfSection chunkSize sec = [pyStrip sec])
    ∧ (chunkSize * 2 < (pyStrip sec).length →
        ∀ c ∈ chunksOfSection chunkSize sec, ∃ pk,
          c = withContext (qlineOf (pyStrip sec)) pk
          ∧ (pk.length ≤ chunkSize * 2 ∨ pk ∈ splitParas (pyStrip sec))) := by
  have hne : (pyStrip sec).isEmpty = false := by
    cases hps : (pyStrip sec).isEmpty with
    | false => rfl
    | true =>
        rw [List.isEmpty_iff.mp hps] at hlines
        exact absurd hlines (by decide)
  have hlt : ¬ (neLines (pyStrip sec)).length < 2 := by omega
  constructor
  · intro hfit
    unfold chunksOfSection
    rw [if_neg (by rw [hne]; exact Bool.false_ne_true)]
    dsimp only
    rw [if_neg hlt, if_neg (by omega)]
  · intro hbig c hc
    unfold chunksOfSection at hc
    rw [if_neg (by rw [hne]; exact Bool.false_ne_true)] at hc
    dsimp only at hc
    rw [if_neg hlt, if_pos hbig] at hc
    exact packLoop_mem (chunkSize * 2) (qlineOf (pyStrip sec)) (splitParas (pyStrip sec))
      (splitParas (pyStrip sec)) [] [] (fun p hp => hp) (Or.inl (by simp))
      (fun c2 hc2 => absurd hc2 (List.not_mem_nil c2)) c hc

theorem faq_chunking_amended_witness :
    2 ≤ (neLines (pyStrip "## What is A?\nBody text here.".data)).length
    ∧ chunksOfSection 1000 "## What is A?\nBody text here.".data
        = [pyStrip "## What is A?\nBody text here.".data] :=
  ⟨by decide,
   (faq_chunking_amended 1000 cDropDoc "## What is A?\nBody text here.".data
      (by decide) (by decide) (by decide)).1 (by decide)⟩

end Kyna
